import Mathlib

/-!
Verification of the event-driven core of dance-a-mole-desktop
(`danceamole/main.py` and `danceamole/events.py`).

Timestamps (Python floats holding seconds since epoch) are modelled as
rationals; all durations appearing in the code (0.25, 3.5, 2, 13, 120) are
exactly representable.  The ambient randomness (`random.random()`, uniform on
[0,1)) is modelled as an explicit draw function `rand : Nat -> Rat`, one draw
per mole slot; the clock (`time.time()`) is an explicit `now` argument.
Score and miss counters only ever grow from 0, so they are `Nat`.
-/

namespace DanceAMole

/-- The `MoleAction` enumeration from `main.py`. -/
inductive MoleAction where
  | LINGERING_BENEATH
  | GOING_UP
  | LOOKING_AROUND
  | GOING_DOWN
  | DIZZYING_DOWN
deriving DecidableEq, Repr

/-- The `Button` enumeration from `events.py`. -/
inductive Button where
  | CROSS
  | UP
  | CIRCLE
  | RIGHT
  | SQUARE
  | DOWN
  | TRIANGLE
  | LEFT
deriving DecidableEq, Repr, Fintype

/-- Event union from `events.py`: `Tick`, `ReceivedQuit`, `ButtonDown(button)`,
`GameOver`. -/
inductive Event where
  | tick
  | receivedQuit
  | buttonDown (button : Button)
  | gameOver
deriving DecidableEq, Repr

/-- The `MoleState` class from `main.py`: current action with its start and expected end
timestamps (the Python attribute `end` is called `end_` here because `end` is a
Lean keyword). -/
structure MoleState where
  action : MoleAction
  start : ℚ
  end_ : ℚ
deriving DecidableEq, Repr

/-- The `State` class from `main.py`: the global game state. -/
structure State where
  received_quit : Bool
  game_start : ℚ
  now : ℚ
  game_end : ℚ
  mole_states : List MoleState
  game_over : Bool
  score : ℕ
  misses : ℕ
deriving DecidableEq, Repr

/-- The `BUTTON_TO_MOLE` dictionary from `main.py`, the dictionary from buttons to mole slot
indices; it is total on `Button`, so it is a plain function here. -/
def BUTTON_TO_MOLE : Button → ℕ
  | .CROSS => 0
  | .UP => 1
  | .CIRCLE => 2
  | .RIGHT => 3
  | .SQUARE => 4
  | .DOWN => 5
  | .TRIANGLE => 6
  | .LEFT => 7

def GOING_DOWN_IN_SECONDS : ℚ := 1/4

def GOING_UP_IN_SECONDS : ℚ := 1/4

/-- Python `int()` applied to a rational: truncation toward zero. -/
def pyInt (q : ℚ) : ℤ := if 0 ≤ q then ⌊q⌋ else ⌈q⌉

/-- The constructor `State.__init__(game_start, game_end)` from `main.py`.  Mole `i` receives
the draw `rand i` of `random.random()`; its initial end is
`game_start + 2 + int(random.random() * 13)`. -/
def State.init (game_start game_end : ℚ) (rand : ℕ → ℚ) : State :=
  { received_quit := false
    score := 0
    misses := 0
    game_start := game_start
    now := game_start
    game_end := game_end
    mole_states := (List.range 8).map fun i =>
      { action := .LINGERING_BENEATH
        start := game_start
        end_ := game_start + 2 + (pyInt (rand i * 13) : ℚ) }
    game_over := false }

/-- The default mole used when list indexing would be out of range (Python
raises `IndexError` there; the index is always in range in this program, see
the bijection and length theorems). -/
def moleDefault : MoleState := ⟨.LINGERING_BENEATH, 0, 0⟩

/-- The body of the per-mole loop of the `Tick` branch of `handle_in_game`:
one expired mole advances exactly one step, with `r` the draw of
`random.random()` used when it re-enters `LINGERING_BENEATH`. -/
def tickMole (now r : ℚ) (m : MoleState) : MoleState :=
  if m.end_ < now then
    match m.action with
    | .LINGERING_BENEATH => ⟨.GOING_UP, now, now + GOING_UP_IN_SECONDS⟩
    | .GOING_UP => ⟨.LOOKING_AROUND, now, now + 7/2⟩
    | .LOOKING_AROUND => ⟨.GOING_DOWN, now, now + GOING_DOWN_IN_SECONDS⟩
    | .GOING_DOWN => ⟨.LINGERING_BENEATH, now, now + 2 + r * 13⟩
    | .DIZZYING_DOWN => ⟨.LINGERING_BENEATH, now, now + 2 + r * 13⟩
  else m

/-- The per-mole loop of the `Tick` branch of `handle_in_game`; `i` is the
slot index of the first mole of `ms`, so mole `i` uses the draw `rand i`. -/
def tickMoles (now : ℚ) (rand : ℕ → ℚ) : ℕ → List MoleState → List MoleState
  | _, [] => []
  | i, m :: ms => tickMole now (rand i) m :: tickMoles now rand (i + 1) ms

/-- Number of misses added by one `Tick`: the expired moles that are
`LOOKING_AROUND` (the only branch of the loop executing `state.misses += 1`). -/
def missIncrement (now : ℚ) (moles : List MoleState) : ℕ :=
  moles.countP fun m =>
    decide (m.end_ < now) && decide (m.action = MoleAction.LOOKING_AROUND)

/-- The function `handle_in_game` from `main.py`.  `now` is the fresh `time.time()` reading
taken at the top of the handler; `rand` supplies the `random.random()` draws of
the `Tick` branch, indexed by mole slot.  Returns the new state and the new
queue (the Python code mutates both in place). -/
def handle_in_game (state : State) (queue : List Event) (now : ℚ)
    (rand : ℕ → ℚ) : State × List Event :=
  match queue with
  | [] => (state, [])
  | event :: rest =>
    match event with
    | .receivedQuit => ({ state with received_quit := true }, rest)
    | .gameOver => ({ state with game_over := true }, rest)
    | .buttonDown b =>
      if state.game_over then (state, rest)
      else
        let mole_index := BUTTON_TO_MOLE b
        if (state.mole_states.getD mole_index moleDefault).action =
            MoleAction.LOOKING_AROUND then
          ({ state with
              mole_states := state.mole_states.set mole_index
                ⟨MoleAction.DIZZYING_DOWN, state.now,
                  state.now + GOING_DOWN_IN_SECONDS⟩
              score := state.score + 1 }, rest)
        else (state, rest)
    | .tick =>
      if state.game_over then (state, rest)
      else if state.game_end < now then
        ({ state with now := now }, rest ++ [Event.gameOver])
      else
        ({ state with
            now := now
            misses := state.misses + missIncrement now state.mole_states
            mole_states := tickMoles now rand 0 state.mole_states }, rest)

/-- The function `handle_in_game_over` from `main.py`. -/
def handle_in_game_over (state : State) (queue : List Event) :
    State × List Event :=
  match queue with
  | [] => (state, [])
  | event :: rest =>
    match event with
    | .receivedQuit => ({ state with received_quit := true }, rest)
    | _ => (state, rest)

/-- The function `handle` from `main.py`: dispatch on the `game_over` flag. -/
def handle (state : State) (queue : List Event) (now : ℚ)
    (rand : ℕ → ℚ) : State × List Event :=
  if state.game_over then handle_in_game_over state queue
  else handle_in_game state queue now rand

/-- Frame selection of `render_game`:
`min(int(fraction * len(images)), len(images) - 1)`. -/
def frameStep (fraction : ℚ) (n : ℕ) : ℤ :=
  min (pyInt (fraction * n)) ((n : ℤ) - 1)

/-- The sprite index `render_game` picks for one mole from a set of `n`
frames. -/
def moleFrameStep (now : ℚ) (m : MoleState) (n : ℕ) : ℤ :=
  frameStep ((now - m.start) / (m.end_ - m.start)) n

/-- The hourglass sprite index `render_game` picks from a set of `n`
frames. -/
def hourglassStep (s : State) (n : ℕ) : ℤ :=
  frameStep ((s.now - s.game_start) / (s.game_end - s.game_start)) n

/-- Number of sprite frames per action, from the image lists of `Paths`:
`lingering_images` (1), `going_up_images` (6), `up_images` (2),
`going_down_images` (6), `dizzy_images` (6). -/
def frameCount : MoleAction → ℕ
  | .LINGERING_BENEATH => 1
  | .GOING_UP => 6
  | .LOOKING_AROUND => 2
  | .GOING_DOWN => 6
  | .DIZZYING_DOWN => 6

/-- Number of hourglass frames, from `hourglass_images` of `Paths`. -/
def HOURGLASS_FRAME_COUNT : ℕ := 5

/-- The mole invariant of the spec, in its strict form: every mole state has a
strictly positive duration. -/
def MolesInvStrict (s : State) : Prop :=
  ∀ m ∈ s.mole_states, m.start < m.end_

/-- What normal-play rendering needs from the state: strictly positive mole
durations, mole starts not in the future, strictly positive round duration and
a clock not before the round start. -/
def RenderInv (s : State) : Prop :=
  (∀ m ∈ s.mole_states, m.start < m.end_ ∧ m.start ≤ s.now) ∧
    s.game_start < s.game_end ∧ s.game_start ≤ s.now

/-- Drain measure: `Tick` can synthesize one `GameOver`, so it weighs 2;
every other event weighs 1. -/
def eventWeight : Event → ℕ
  | .tick => 2
  | _ => 1

def queueMeasure (q : List Event) : ℕ := (q.map eventWeight).sum

/-- Up to `n` iterations of the drain loop
`while len(our_event_queue) > 0: handle(...)` of `main`.  `env j` supplies the
`time.time()` reading and the `random.random()` draws of the `j`-th `handle`
call; `k` is the index of the next call. -/
def drainIter (env : ℕ → ℚ × (ℕ → ℚ)) :
    ℕ → ℕ → State × List Event → State × List Event
  | 0, _, p => p
  | n + 1, k, (s, q) =>
    match q with
    | [] => (s, q)
    | _ :: _ => drainIter env n (k + 1) (handle s q (env k).1 (env k).2)

/-! Helper lemmas -/

theorem tickMoles_length (now : ℚ) (rand : ℕ → ℚ) :
    ∀ (i : ℕ) (ms : List MoleState),
      (tickMoles now rand i ms).length = ms.length
  | _, [] => rfl
  | i, _ :: ms => by
    simp [tickMoles, tickMoles_length now rand (i + 1) ms]

theorem tickMoles_getD (now : ℚ) (rand : ℕ → ℚ) (d : MoleState) :
    ∀ (ms : List MoleState) (i j : ℕ), j < ms.length →
      (tickMoles now rand i ms).getD j d =
        tickMole now (rand (i + j)) (ms.getD j d)
  | [], _, j, hj => absurd hj (by simp)
  | m :: ms, i, 0, _ => by simp [tickMoles]
  | m :: ms, i, j + 1, hj => by
    have := tickMoles_getD now rand d ms (i + 1) j (by simpa using hj)
    simpa [tickMoles, Nat.add_assoc, Nat.add_comm 1 j] using this

theorem tickMoles_mem (P : MoleState → Prop) (now : ℚ) (rand : ℕ → ℚ)
    (hstep : ∀ j m, P m → P (tickMole now (rand j) m)) :
    ∀ (i : ℕ) (ms : List MoleState), (∀ m ∈ ms, P m) →
      ∀ m' ∈ tickMoles now rand i ms, P m'
  | _, [], _, _, hm => absurd hm (by simp [tickMoles])
  | i, m :: ms, hall, m', hm' => by
    rcases (by simpa [tickMoles] using hm' :
        m' = tickMole now (rand i) m ∨ m' ∈ tickMoles now rand (i + 1) ms) with
      h | h
    · exact h ▸ hstep i m (hall m (by simp))
    · exact tickMoles_mem P now rand hstep (i + 1) ms
        (fun x hx => hall x (by simp [hx])) m' h

theorem getD_set_self_of_lt (l : List MoleState) (i : ℕ) (a d : MoleState)
    (h : i < l.length) : (l.set i a).getD i d = a := by
  simp [List.getD_eq_getElem?_getD, List.getElem?_set_self h]

theorem getD_set_of_ne (l : List MoleState) (i j : ℕ) (a d : MoleState)
    (h : i ≠ j) : (l.set i a).getD j d = l.getD j d := by
  simp [List.getD_eq_getElem?_getD, List.getElem?_set_ne h]

theorem handle_game_over_mono (s : State) (q : List Event) (now : ℚ)
    (rand : ℕ → ℚ) (h : s.game_over = true) :
    (handle s q now rand).1.game_over = true := by
  cases q with
  | nil => simp [handle, handle_in_game_over, h]
  | cons e rest => cases e <;> simp [handle, handle_in_game_over, h]

theorem handle_received_quit_mono (s : State) (q : List Event) (now : ℚ)
    (rand : ℕ → ℚ) (h : s.received_quit = true) :
    (handle s q now rand).1.received_quit = true := by
  cases hgo : s.game_over with
  | true =>
    cases q with
    | nil => simp [handle, handle_in_game_over, hgo, h]
    | cons e rest => cases e <;> simp [handle, handle_in_game_over, hgo, h]
  | false =>
    cases q with
    | nil => simp [handle, handle_in_game, hgo, h]
    | cons e rest =>
      cases e with
      | tick =>
        simp [handle, handle_in_game, hgo]
        split <;> simp [h]
      | receivedQuit => simp [handle, handle_in_game, hgo, h]
      | buttonDown b =>
        simp [handle, handle_in_game, hgo]
        split <;> simp [h]
      | gameOver => simp [handle, handle_in_game, hgo, h]

theorem handle_in_game_over_moles (s : State) (q : List Event) :
    (handle_in_game_over s q).1.mole_states = s.mole_states := by
  cases q with
  | nil => rfl
  | cons e rest => cases e <;> rfl

theorem tickMole_strict (now r : ℚ) (hr : 0 ≤ r) (m : MoleState)
    (hm : m.start < m.end_) :
    (tickMole now r m).start < (tickMole now r m).end_ := by
  have h13 : (0:ℚ) ≤ r * 13 := mul_nonneg hr (by norm_num)
  rcases m with ⟨a, st, en⟩
  unfold tickMole
  split
  · cases a <;> simp [GOING_UP_IN_SECONDS, GOING_DOWN_IN_SECONDS] <;> linarith
  · exact hm

/-! Claim theorems -/

/-- Claim C10: calling `handle` with an empty event queue is a no-op in both
modes: the state is returned unchanged and the queue stays empty. -/
theorem c10_empty_queue_noop (s : State) (now : ℚ) (rand : ℕ → ℚ) :
    handle s [] now rand = (s, []) := by
  cases h : s.game_over <;>
    simp [handle, handle_in_game, handle_in_game_over, h]

/-- Claim C1: in game (with the 8-mole invariant), handling `ButtonDown b` pops
the event; if the mapped mole is `LOOKING_AROUND` it becomes `DIZZYING_DOWN`
with `start = state.now`, `end = state.now + 0.25`, the score grows by exactly
1 and everything else (misses, clock, flags, the other moles) is unchanged;
otherwise the whole state is unchanged. -/
theorem c1_button_down_hit_rule (s : State) (b : Button) (rest : List Event)
    (now : ℚ) (rand : ℕ → ℚ)
    (hgo : s.game_over = false) (hlen : s.mole_states.length = 8) :
    (handle s (Event.buttonDown b :: rest) now rand).2 = rest ∧
    ((s.mole_states.getD (BUTTON_TO_MOLE b) moleDefault).action =
        MoleAction.LOOKING_AROUND →
      (handle s (Event.buttonDown b :: rest) now rand).1 =
        { s with
            mole_states := s.mole_states.set (BUTTON_TO_MOLE b)
              ⟨MoleAction.DIZZYING_DOWN, s.now, s.now + 1/4⟩
            score := s.score + 1 } ∧
      (handle s (Event.buttonDown b :: rest) now rand).1.mole_states.getD
          (BUTTON_TO_MOLE b) moleDefault =
        ⟨MoleAction.DIZZYING_DOWN, s.now, s.now + 1/4⟩ ∧
      ∀ j, j ≠ BUTTON_TO_MOLE b →
        (handle s (Event.buttonDown b :: rest) now rand).1.mole_states.getD j
            moleDefault = s.mole_states.getD j moleDefault) ∧
    ((s.mole_states.getD (BUTTON_TO_MOLE b) moleDefault).action ≠
        MoleAction.LOOKING_AROUND →
      (handle s (Event.buttonDown b :: rest) now rand).1 = s) := by
  have hb : BUTTON_TO_MOLE b < s.mole_states.length := by
    rw [hlen]; cases b <;> simp [BUTTON_TO_MOLE]
  by_cases hla : (s.mole_states.getD (BUTTON_TO_MOLE b) moleDefault).action =
      MoleAction.LOOKING_AROUND
  · have hla' : (s.mole_states[BUTTON_TO_MOLE b]?.getD moleDefault).action =
        MoleAction.LOOKING_AROUND := by
      simpa [List.getD_eq_getElem?_getD] using hla
    have heq : handle s (Event.buttonDown b :: rest) now rand =
        ({ s with
            mole_states := s.mole_states.set (BUTTON_TO_MOLE b)
              ⟨MoleAction.DIZZYING_DOWN, s.now, s.now + 1/4⟩
            score := s.score + 1 }, rest) := by
      simp [handle, handle_in_game, hgo, hla', GOING_DOWN_IN_SECONDS]
    refine ⟨by rw [heq], fun _ => ⟨by rw [heq], ?_, ?_⟩,
      fun hc => absurd hla hc⟩
    · rw [heq]
      exact getD_set_self_of_lt s.mole_states (BUTTON_TO_MOLE b) _ moleDefault
        hb
    · intro j hj
      rw [heq]
      exact getD_set_of_ne s.mole_states (BUTTON_TO_MOLE b) j _ moleDefault
        (fun h => hj h.symm)
  · have hla' : ¬(s.mole_states[BUTTON_TO_MOLE b]?.getD moleDefault).action =
        MoleAction.LOOKING_AROUND := by
      simpa [List.getD_eq_getElem?_getD] using hla
    have heq : handle s (Event.buttonDown b :: rest) now rand = (s, rest) := by
      simp [handle, handle_in_game, hgo, hla']
    exact ⟨by rw [heq], fun hc => absurd hc hla, fun _ => by rw [heq]⟩

/-- Claim C2: in game, a `Tick` whose fresh reading `now` satisfies
`now <= game_end` pops the event, sets the clock to `now`, leaves score,
flags and the mole count unchanged, adds to `misses` exactly the number of
expired `LOOKING_AROUND` moles, leaves every unexpired mole (`now <= end`)
unchanged, and advances every expired mole (`now > end`) exactly one step
along the fixed cycle with `start = now` and the specified new `end` (the
`LINGERING_BENEATH` re-entry drawing `r` in `[0,1)` lands in
`[now+2, now+15)`). -/
theorem c2_tick_advances_moles_one_step (s : State) (rest : List Event)
    (now : ℚ) (rand : ℕ → ℚ) (hgo : s.game_over = false)
    (hle : now ≤ s.game_end) (hr : ∀ i, 0 ≤ rand i ∧ rand i < 1) :
    (handle s (Event.tick :: rest) now rand).2 = rest ∧
    (handle s (Event.tick :: rest) now rand).1.now = now ∧
    (handle s (Event.tick :: rest) now rand).1.score = s.score ∧
    (handle s (Event.tick :: rest) now rand).1.game_over = false ∧
    (handle s (Event.tick :: rest) now rand).1.received_quit =
      s.received_quit ∧
    (handle s (Event.tick :: rest) now rand).1.game_start = s.game_start ∧
    (handle s (Event.tick :: rest) now rand).1.game_end = s.game_end ∧
    (handle s (Event.tick :: rest) now rand).1.mole_states.length =
      s.mole_states.length ∧
    (handle s (Event.tick :: rest) now rand).1.misses =
      s.misses + s.mole_states.countP (fun m =>
        decide (m.end_ < now) && decide (m.action = MoleAction.LOOKING_AROUND)) ∧
    (∀ j, now + 2 ≤ now + 2 + rand j * 13 ∧ now + 2 + rand j * 13 < now + 15) ∧
    ∀ j, j < s.mole_states.length →
      (¬(s.mole_states.getD j moleDefault).end_ < now →
        (handle s (Event.tick :: rest) now rand).1.mole_states.getD j
          moleDefault = s.mole_states.getD j moleDefault) ∧
      ((s.mole_states.getD j moleDefault).end_ < now →
        (handle s (Event.tick :: rest) now rand).1.mole_states.getD j
            moleDefault =
          match (s.mole_states.getD j moleDefault).action with
          | .LINGERING_BENEATH => ⟨.GOING_UP, now, now + 1/4⟩
          | .GOING_UP => ⟨.LOOKING_AROUND, now, now + 7/2⟩
          | .LOOKING_AROUND => ⟨.GOING_DOWN, now, now + 1/4⟩
          | .GOING_DOWN => ⟨.LINGERING_BENEATH, now, now + 2 + rand j * 13⟩
          | .DIZZYING_DOWN =>
            ⟨.LINGERING_BENEATH, now, now + 2 + rand j * 13⟩) := by
  have hnl : ¬s.game_end < now := not_lt.mpr hle
  have heq : handle s (Event.tick :: rest) now rand =
      ({ s with
          now := now
          misses := s.misses + missIncrement now s.mole_states
          mole_states := tickMoles now rand 0 s.mole_states }, rest) := by
    simp [handle, handle_in_game, hgo, hnl]
  refine ⟨by rw [heq], by rw [heq], by rw [heq], by rw [heq]; exact hgo,
    by rw [heq], by rw [heq], by rw [heq], ?_, by rw [heq]; rfl, ?_, ?_⟩
  · rw [heq]
    exact tickMoles_length now rand 0 s.mole_states
  · intro j
    have h13 : rand j * 13 < 13 := by nlinarith [(hr j).2]
    constructor
    · nlinarith [(hr j).1]
    · linarith
  · intro j hj
    have hget : (handle s (Event.tick :: rest) now rand).1.mole_states.getD j
        moleDefault = tickMole now (rand j)
          (s.mole_states.getD j moleDefault) := by
      rw [heq]
      have := tickMoles_getD now rand moleDefault s.mole_states 0 j hj
      simpa using this
    constructor
    · intro hexp
      rw [hget, tickMole, if_neg hexp]
    · intro hexp
      rw [hget]
      unfold tickMole
      rw [if_pos hexp]
      cases hact : (s.mole_states.getD j moleDefault).action <;> rfl

/-- Claim C3: in game, a `Tick` whose fresh reading `now` exceeds `game_end`
only advances the clock and appends a single `GameOver` at the tail of the
queue (no mole, score or miss change); handling a `GameOver` in game sets
`game_over` and changes nothing else. -/
theorem c3_tick_past_game_end (s : State) (rest : List Event) (now : ℚ)
    (rand : ℕ → ℚ) (hgo : s.game_over = false) (hgt : s.game_end < now) :
    handle s (Event.tick :: rest) now rand =
      ({ s with now := now }, rest ++ [Event.gameOver]) ∧
    ∀ (s₂ : State) (rest₂ : List Event) (now₂ : ℚ) (rand₂ : ℕ → ℚ),
      s₂.game_over = false →
      handle s₂ (Event.gameOver :: rest₂) now₂ rand₂ =
        ({ s₂ with game_over := true }, rest₂) := by
  constructor
  · simp [handle, handle_in_game, hgo, hgt]
  · intro s₂ rest₂ now₂ rand₂ hgo₂
    simp [handle, handle_in_game, hgo₂]

/-- Claim C4: once `game_over` is true, handling any event other than
`ReceivedQuit` leaves the state unchanged and `ReceivedQuit` only sets
`received_quit`; moreover neither `game_over` nor `received_quit`, once true,
is reset by handling any queue (the mode flag is re-checked per event). -/
theorem c4_game_over_mode_and_latching (s : State) (e : Event)
    (rest : List Event) (now : ℚ) (rand : ℕ → ℚ) :
    (s.game_over = true →
      (handle s (e :: rest) now rand).2 = rest ∧
      (e = Event.receivedQuit →
        (handle s (e :: rest) now rand).1 = { s with received_quit := true }) ∧
      (e ≠ Event.receivedQuit → (handle s (e :: rest) now rand).1 = s)) ∧
    (∀ q, s.game_over = true → (handle s q now rand).1.game_over = true) ∧
    (∀ q, s.received_quit = true →
      (handle s q now rand).1.received_quit = true) := by
  refine ⟨fun hgo => ⟨?_, ?_, ?_⟩,
    fun q h => handle_game_over_mono s q now rand h,
    fun q h => handle_received_quit_mono s q now rand h⟩
  · cases e <;> simp [handle, handle_in_game_over, hgo]
  · intro he; subst he; simp [handle, handle_in_game_over, hgo]
  · intro he; cases e <;> simp [handle, handle_in_game_over, hgo] at he ⊢

/-- Claim C5: with draws in `[0,1)`, construction establishes and every `handle`
call preserves the strict mole invariant `start < end` on all mole states,
which entails the spec invariant `start <= end`. -/
theorem c5_mole_invariant_preserved :
    (∀ (gs ge : ℚ) (rand : ℕ → ℚ), (∀ i, 0 ≤ rand i) →
      MolesInvStrict (State.init gs ge rand)) ∧
    (∀ (s : State) (q : List Event) (now : ℚ) (rand : ℕ → ℚ),
      (∀ i, 0 ≤ rand i) → MolesInvStrict s →
      MolesInvStrict (handle s q now rand).1) ∧
    (∀ s : State, MolesInvStrict s → ∀ m ∈ s.mole_states,
      m.start ≤ m.end_) := by
  refine ⟨?_, ?_, fun s hinv m hm => le_of_lt (hinv m hm)⟩
  · intro gs ge rand hr m hm
    simp only [State.init, List.mem_map, List.mem_range] at hm
    obtain ⟨i, -, rfl⟩ := hm
    have h0 : (0:ℚ) ≤ rand i * 13 := mul_nonneg (hr i) (by norm_num)
    have hfl : (0:ℤ) ≤ pyInt (rand i * 13) := by
      rw [pyInt, if_pos h0]
      exact Int.floor_nonneg.mpr h0
    have hq : (0:ℚ) ≤ (pyInt (rand i * 13) : ℚ) := by exact_mod_cast hfl
    show gs < gs + 2 + (pyInt (rand i * 13) : ℚ)
    linarith
  · intro s q now rand hr hinv
    unfold handle
    split
    · intro m hm
      rw [handle_in_game_over_moles] at hm
      exact hinv m hm
    · cases q with
      | nil => exact hinv
      | cons e rest =>
        cases e with
        | receivedQuit => exact hinv
        | gameOver => exact hinv
        | buttonDown b =>
          simp only [handle_in_game]
          split
          · exact hinv
          · split
            · intro m hm
              rcases List.mem_or_eq_of_mem_set hm with h | rfl
              · exact hinv m h
              · show s.now < s.now + GOING_DOWN_IN_SECONDS
                rw [GOING_DOWN_IN_SECONDS]; linarith
            · exact hinv
        | tick =>
          simp only [handle_in_game]
          split
          · exact hinv
          · split
            · exact hinv
            · intro m hm
              exact tickMoles_mem (fun m => m.start < m.end_) now rand
                (fun j m hm' => tickMole_strict now (rand j) (hr j) m hm') 0
                s.mole_states hinv m hm

theorem frameStep_bounds (f : ℚ) (n : ℕ) (hf : 0 ≤ f) (hn : 1 ≤ n) :
    0 ≤ frameStep f n ∧ frameStep f n ≤ (n : ℤ) - 1 := by
  have h0 : (0:ℚ) ≤ f * n := mul_nonneg hf (by positivity)
  have hn' : (1:ℤ) ≤ (n : ℤ) := by exact_mod_cast hn
  unfold frameStep pyInt
  rw [if_pos h0]
  refine ⟨le_min (Int.floor_nonneg.mpr h0) (by omega), min_le_right _ _⟩

theorem frameCount_pos (a : MoleAction) : 1 ≤ frameCount a := by
  cases a <;> simp [frameCount]

theorem tickMole_render (now r : ℚ) (hr : 0 ≤ r) (m : MoleState)
    (hm : m.start < m.end_ ∧ m.start ≤ now) :
    (tickMole now r m).start < (tickMole now r m).end_ ∧
      (tickMole now r m).start ≤ now := by
  have h13 : (0:ℚ) ≤ r * 13 := mul_nonneg hr (by norm_num)
  rcases m with ⟨a, st, en⟩
  unfold tickMole
  split
  · cases a <;>
      simp [GOING_UP_IN_SECONDS, GOING_DOWN_IN_SECONDS] <;>
      first
        | exact ⟨by linarith, by linarith⟩
        | linarith
  · exact hm

/-- Claim C6: render-selection safety.  Construction (with a strictly positive
round duration, as `main` uses `game_duration = 120`) establishes and `handle`
(with a monotone clock) preserves `RenderInv`; under `RenderInv` no divisor of
`render_game` is zero and every selected sprite index, per mole and for the
hourglass, lies within `[0, frameCount - 1]`. -/
theorem c6_render_selection_safe :
    (∀ (gs ge : ℚ) (rand : ℕ → ℚ), gs < ge → (∀ i, 0 ≤ rand i) →
      RenderInv (State.init gs ge rand)) ∧
    (∀ (s : State) (q : List Event) (now : ℚ) (rand : ℕ → ℚ),
      (∀ i, 0 ≤ rand i) → s.now ≤ now → RenderInv s →
      RenderInv (handle s q now rand).1) ∧
    (∀ s : State, RenderInv s →
      (∀ m ∈ s.mole_states, m.end_ - m.start ≠ 0 ∧
        0 ≤ moleFrameStep s.now m (frameCount m.action) ∧
        moleFrameStep s.now m (frameCount m.action) ≤
          (frameCount m.action : ℤ) - 1) ∧
      s.game_end - s.game_start ≠ 0 ∧
      0 ≤ hourglassStep s HOURGLASS_FRAME_COUNT ∧
      hourglassStep s HOURGLASS_FRAME_COUNT ≤
        (HOURGLASS_FRAME_COUNT : ℤ) - 1) := by
  refine ⟨?_, ?_, ?_⟩
  · intro gs ge rand hlt hr
    refine ⟨?_, hlt, le_refl _⟩
    intro m hm
    simp only [State.init, List.mem_map, List.mem_range] at hm
    obtain ⟨i, -, rfl⟩ := hm
    have h0 : (0:ℚ) ≤ rand i * 13 := mul_nonneg (hr i) (by norm_num)
    have hfl : (0:ℤ) ≤ pyInt (rand i * 13) := by
      rw [pyInt, if_pos h0]
      exact Int.floor_nonneg.mpr h0
    have hq : (0:ℚ) ≤ (pyInt (rand i * 13) : ℚ) := by exact_mod_cast hfl
    exact ⟨by show gs < gs + 2 + (pyInt (rand i * 13) : ℚ); linarith,
      le_refl _⟩
  · intro s q now rand hr hnow hinv
    obtain ⟨hmoles, hge, hgs⟩ := hinv
    unfold handle
    split
    · cases q with
      | nil => exact ⟨hmoles, hge, hgs⟩
      | cons e rest => cases e <;> exact ⟨hmoles, hge, hgs⟩
    · cases q with
      | nil => exact ⟨hmoles, hge, hgs⟩
      | cons e rest =>
        cases e with
        | receivedQuit => exact ⟨hmoles, hge, hgs⟩
        | gameOver => exact ⟨hmoles, hge, hgs⟩
        | buttonDown b =>
          simp only [handle_in_game]
          split
          · exact ⟨hmoles, hge, hgs⟩
          · split
            · refine ⟨?_, hge, hgs⟩
              intro m hm
              rcases List.mem_or_eq_of_mem_set hm with h | rfl
              · exact hmoles m h
              · refine ⟨?_, le_refl _⟩
                show s.now < s.now + GOING_DOWN_IN_SECONDS
                rw [GOING_DOWN_IN_SECONDS]
                linarith
            · exact ⟨hmoles, hge, hgs⟩
        | tick =>
          simp only [handle_in_game]
          split
          · exact ⟨hmoles, hge, hgs⟩
          · split
            · refine ⟨?_, hge, le_trans hgs hnow⟩
              intro m hm
              obtain ⟨h1, h2⟩ := hmoles m hm
              exact ⟨h1, le_trans h2 hnow⟩
            · refine ⟨?_, hge, le_trans hgs hnow⟩
              intro m hm
              exact tickMoles_mem
                (fun m => m.start < m.end_ ∧ m.start ≤ now) now rand
                (fun j m hm' => tickMole_render now (rand j) (hr j) m hm') 0
                s.mole_states
                (fun m hm' => ⟨(hmoles m hm').1,
                  le_trans (hmoles m hm').2 hnow⟩) m hm
  · intro s hinv
    obtain ⟨hmoles, hge, hgs⟩ := hinv
    refine ⟨?_, ?_, ?_, ?_⟩
    · intro m hm
      obtain ⟨h1, h2⟩ := hmoles m hm
      have hdur : (0:ℚ) < m.end_ - m.start := by linarith
      have hfrac : (0:ℚ) ≤ (s.now - m.start) / (m.end_ - m.start) :=
        div_nonneg (by linarith) (le_of_lt hdur)
      obtain ⟨hb1, hb2⟩ := frameStep_bounds _ (frameCount m.action) hfrac
        (frameCount_pos m.action)
      exact ⟨ne_of_gt hdur, hb1, hb2⟩
    · have : (0:ℚ) < s.game_end - s.game_start := by linarith
      exact ne_of_gt this
    · have hfrac : (0:ℚ) ≤ (s.now - s.game_start) /
          (s.game_end - s.game_start) :=
        div_nonneg (by linarith) (by linarith)
      exact (frameStep_bounds _ HOURGLASS_FRAME_COUNT hfrac
        (by norm_num [HOURGLASS_FRAME_COUNT])).1
    · have hfrac : (0:ℚ) ≤ (s.now - s.game_start) /
          (s.game_end - s.game_start) :=
        div_nonneg (by linarith) (by linarith)
      exact (frameStep_bounds _ HOURGLASS_FRAME_COUNT hfrac
        (by norm_num [HOURGLASS_FRAME_COUNT])).2

theorem handle_moles_length (s : State) (q : List Event) (now : ℚ)
    (rand : ℕ → ℚ) :
    (handle s q now rand).1.mole_states.length = s.mole_states.length := by
  unfold handle
  split
  · rw [handle_in_game_over_moles]
  · cases q with
    | nil => rfl
    | cons e rest =>
      cases e with
      | receivedQuit => rfl
      | gameOver => rfl
      | buttonDown b =>
        simp only [handle_in_game]
        split
        · rfl
        · split
          · simp
          · rfl
      | tick =>
        simp only [handle_in_game]
        split
        · rfl
        · split
          · rfl
          · exact tickMoles_length now rand 0 s.mole_states

/-- Claim C7: `BUTTON_TO_MOLE` is a total bijection from the 8 buttons onto the
slot indices `{0..7}` (no collisions, no gaps), and `mole_states` has length 8
at construction and after every handled event. -/
theorem c7_button_bijection_eight_moles :
    (∀ b, BUTTON_TO_MOLE b < 8) ∧
    Function.Injective BUTTON_TO_MOLE ∧
    (∀ i, i < 8 → ∃ b, BUTTON_TO_MOLE b = i) ∧
    (∀ (gs ge : ℚ) (rand : ℕ → ℚ),
      (State.init gs ge rand).mole_states.length = 8) ∧
    (∀ (s : State) (q : List Event) (now : ℚ) (rand : ℕ → ℚ),
      s.mole_states.length = 8 →
      (handle s q now rand).1.mole_states.length = 8) := by
  refine ⟨by decide, by decide, by decide, ?_, ?_⟩
  · intro gs ge rand
    simp [State.init]
  · intro s q now rand h
    rw [handle_moles_length, h]

/-- Claim C8: constructing `State(game_start, game_end)` under the precondition
`game_start <= game_end`, with all draws in `[0,1)`, yields
`received_quit = false`, `game_over = false`, `score = 0`, `misses = 0`,
`now = game_start`, and 8 moles each `LINGERING_BENEATH` with
`start = game_start` and a randomized `end` in `[game_start+2,
game_start+15)`. -/
theorem c8_initial_state (gs ge : ℚ) (rand : ℕ → ℚ) (hpre : gs ≤ ge)
    (hr : ∀ i, 0 ≤ rand i ∧ rand i < 1) :
    (State.init gs ge rand).received_quit = false ∧
    (State.init gs ge rand).game_over = false ∧
    (State.init gs ge rand).score = 0 ∧
    (State.init gs ge rand).misses = 0 ∧
    (State.init gs ge rand).now = gs ∧
    (State.init gs ge rand).game_start = gs ∧
    (State.init gs ge rand).game_end = ge ∧
    (State.init gs ge rand).mole_states.length = 8 ∧
    ∀ m ∈ (State.init gs ge rand).mole_states,
      m.action = MoleAction.LINGERING_BENEATH ∧ m.start = gs ∧
      gs + 2 ≤ m.end_ ∧ m.end_ < gs + 15 := by
  refine ⟨rfl, rfl, rfl, rfl, rfl, rfl, rfl, by simp [State.init], ?_⟩
  intro m hm
  simp only [State.init, List.mem_map, List.mem_range] at hm
  obtain ⟨i, -, rfl⟩ := hm
  have h0 : (0:ℚ) ≤ rand i * 13 := mul_nonneg (hr i).1 (by norm_num)
  have h13 : rand i * 13 < 13 := by nlinarith [(hr i).2]
  have hpy : pyInt (rand i * 13) = ⌊rand i * 13⌋ := by
    rw [pyInt, if_pos h0]
  have hlo : (0:ℤ) ≤ ⌊rand i * 13⌋ := Int.floor_nonneg.mpr h0
  have hup : (⌊rand i * 13⌋ : ℚ) ≤ rand i * 13 := Int.floor_le _
  have hlo' : (0:ℚ) ≤ (⌊rand i * 13⌋ : ℚ) := by exact_mod_cast hlo
  refine ⟨rfl, rfl, ?_, ?_⟩
  · show gs + 2 ≤ gs + 2 + (pyInt (rand i * 13) : ℚ)
    rw [hpy]
    linarith
  · show gs + 2 + (pyInt (rand i * 13) : ℚ) < gs + 15
    rw [hpy]
    linarith

theorem eventWeight_pos (e : Event) : 1 ≤ eventWeight e := by
  cases e <;> simp [eventWeight]

theorem queueMeasure_cons (e : Event) (rest : List Event) :
    queueMeasure (e :: rest) = eventWeight e + queueMeasure rest := by
  simp [queueMeasure]

theorem queueMeasure_append_gameOver (rest : List Event) :
    queueMeasure (rest ++ [Event.gameOver]) = queueMeasure rest + 1 := by
  simp [queueMeasure, eventWeight]

theorem handle_measure_lt (s : State) (e : Event) (rest : List Event)
    (now : ℚ) (rand : ℕ → ℚ) :
    queueMeasure (handle s (e :: rest) now rand).2 <
      queueMeasure (e :: rest) := by
  have hw := eventWeight_pos e
  unfold handle
  split
  · cases e <;>
      simp [handle_in_game_over, queueMeasure_cons, eventWeight] <;> omega
  · cases e with
    | receivedQuit => simp [handle_in_game, queueMeasure_cons, eventWeight]
    | gameOver => simp [handle_in_game, queueMeasure_cons, eventWeight]
    | buttonDown b =>
      simp only [handle_in_game]
      split
      · simp [queueMeasure_cons, eventWeight]
      · split <;> simp [queueMeasure_cons, eventWeight]
    | tick =>
      simp only [handle_in_game]
      split
      · simp [queueMeasure_cons, eventWeight]
      · split
        · rw [queueMeasure_cons]
          show queueMeasure (rest ++ [Event.gameOver]) <
            eventWeight Event.tick + queueMeasure rest
          rw [queueMeasure_append_gameOver]
          simp [eventWeight]
          omega
        · simp [queueMeasure_cons, eventWeight]

theorem drainIter_empties (env : ℕ → ℚ × (ℕ → ℚ)) :
    ∀ (n k : ℕ) (s : State) (q : List Event), queueMeasure q ≤ n →
      (drainIter env n k (s, q)).2 = []
  | 0, k, s, q, hq => by
    cases q with
    | nil => rfl
    | cons e rest =>
      exfalso
      have hw := eventWeight_pos e
      rw [queueMeasure_cons] at hq
      omega
  | n + 1, k, s, q, hq => by
    cases q with
    | nil => rfl
    | cons e rest =>
      have hlt := handle_measure_lt s e rest (env k).1 (env k).2
      have hle : queueMeasure (handle s (e :: rest) (env k).1 (env k).2).2 ≤
          n := by omega
      show (drainIter env n (k + 1)
        (handle s (e :: rest) (env k).1 (env k).2)).2 = []
      rcases hh : handle s (e :: rest) (env k).1 (env k).2 with ⟨s', q'⟩
      rw [hh] at hle
      exact drainIter_empties env n (k + 1) s' q' hle

/-- Claim C9: the drain loop terminates.  Each `handle` call on a non-empty
queue removes exactly the front event and appends at most one event — a
single `GameOver`, exactly when a `Tick` is handled in game with
`now > game_end`; `GameOver`, `ReceivedQuit` and `ButtonDown` never append.
Consequently iterating `handle` for `queueMeasure q` steps (`Tick` weighs 2,
every other event 1) always empties the queue. -/
theorem c9_drain_terminates :
    (∀ (s : State) (e : Event) (rest : List Event) (now : ℚ) (rand : ℕ → ℚ),
      ((handle s (e :: rest) now rand).2 = rest ∨
        (handle s (e :: rest) now rand).2 = rest ++ [Event.gameOver]) ∧
      ((handle s (e :: rest) now rand).2 = rest ++ [Event.gameOver] ↔
        e = Event.tick ∧ s.game_over = false ∧ s.game_end < now) ∧
      ((e = Event.gameOver ∨ e = Event.receivedQuit ∨
          (∃ b, e = Event.buttonDown b)) →
        (handle s (e :: rest) now rand).2 = rest)) ∧
    (∀ (env : ℕ → ℚ × (ℕ → ℚ)) (k : ℕ) (s : State) (q : List Event),
      (drainIter env (queueMeasure q) k (s, q)).2 = []) := by
  constructor
  · intro s e rest now rand
    have hne : rest ++ [Event.gameOver] ≠ rest := by
      intro h
      have := congrArg List.length h
      simp at this
    have hshape : (handle s (e :: rest) now rand).2 =
        (if e = Event.tick ∧ s.game_over = false ∧ s.game_end < now then
          rest ++ [Event.gameOver] else rest) := by
      unfold handle
      rcases hgo : s.game_over with _ | _
      · cases e with
        | receivedQuit => simp [handle_in_game]
        | gameOver => simp [handle_in_game]
        | buttonDown b =>
          simp only [handle_in_game, hgo]
          simp
          split <;> rfl
        | tick =>
          simp only [handle_in_game, hgo]
          by_cases hgt : s.game_end < now <;> simp [hgt]
      · cases e <;> simp [handle_in_game_over, hgo]
    rw [hshape]
    by_cases hc : e = Event.tick ∧ s.game_over = false ∧ s.game_end < now
    · rw [if_pos hc]
      refine ⟨Or.inr rfl, ⟨fun _ => hc, fun _ => rfl⟩, ?_⟩
      rintro (rfl | rfl | ⟨b, rfl⟩) <;> simp_all
    · rw [if_neg hc]
      exact ⟨Or.inl rfl, ⟨fun h => absurd h.symm hne, fun h => absurd h hc⟩,
        fun _ => rfl⟩
  · intro env k s q
    exact drainIter_empties env (queueMeasure q) k s q (le_refl _)

/-! Witnesses: the claim theorems applied at concrete inputs -/

theorem c1_button_down_hit_rule_witness :
    (State.init 0 120 (fun _ => 0)).game_over = false ∧
    (State.init 0 120 (fun _ => 0)).mole_states.length = 8 ∧
    (handle (State.init 0 120 (fun _ => 0))
      [Event.buttonDown Button.CROSS] 0 (fun _ => 0)).2 = [] :=
  ⟨rfl, by simp [State.init],
    (c1_button_down_hit_rule (State.init 0 120 (fun _ => 0)) Button.CROSS []
      0 (fun _ => 0) rfl (by simp [State.init])).1⟩

theorem c2_tick_advances_moles_one_step_witness :
    (State.init 0 120 (fun _ => 0)).game_over = false ∧
    (5:ℚ) ≤ (State.init 0 120 (fun _ => 0)).game_end ∧
    (∀ i : ℕ, (0:ℚ) ≤ (fun _ => (0:ℚ)) i ∧ (fun _ => (0:ℚ)) i < 1) ∧
    (handle (State.init 0 120 (fun _ => 0)) [Event.tick] 5
      (fun _ => 0)).1.now = 5 :=
  ⟨rfl, by norm_num [State.init], fun i => ⟨le_refl 0, by norm_num⟩,
    (c2_tick_advances_moles_one_step (State.init 0 120 (fun _ => 0)) [] 5
      (fun _ => 0) rfl (by norm_num [State.init])
      (fun i => ⟨le_refl 0, by norm_num⟩)).2.1⟩

theorem c3_tick_past_game_end_witness :
    (State.init 0 120 (fun _ => 0)).game_over = false ∧
    (State.init 0 120 (fun _ => 0)).game_end < 121 ∧
    handle (State.init 0 120 (fun _ => 0)) [Event.tick] 121 (fun _ => 0) =
      ({ State.init 0 120 (fun _ => 0) with now := 121 }, [Event.gameOver]) :=
  ⟨rfl, by norm_num [State.init],
    (c3_tick_past_game_end (State.init 0 120 (fun _ => 0)) [] 121
      (fun _ => 0) rfl (by norm_num [State.init])).1⟩

theorem c4_game_over_mode_and_latching_witness :
    ({ State.init 0 120 (fun _ => 0) with game_over := true }).game_over =
      true ∧
    Event.buttonDown Button.CROSS ≠ Event.receivedQuit ∧
    (handle { State.init 0 120 (fun _ => 0) with game_over := true }
        [Event.buttonDown Button.CROSS] 0 (fun _ => 0)).1 =
      { State.init 0 120 (fun _ => 0) with game_over := true } :=
  ⟨rfl, by decide,
    ((c4_game_over_mode_and_latching
        { State.init 0 120 (fun _ => 0) with game_over := true }
        (Event.buttonDown Button.CROSS) [] 0 (fun _ => 0)).1 rfl).2.2
      (by decide)⟩

theorem c5_mole_invariant_preserved_witness :
    (∀ i : ℕ, (0:ℚ) ≤ (fun _ => (0:ℚ)) i) ∧
    MolesInvStrict (State.init 0 120 (fun _ => 0)) :=
  ⟨fun i => le_refl 0,
    c5_mole_invariant_preserved.1 0 120 (fun _ => 0) (fun i => le_refl 0)⟩

theorem c6_render_selection_safe_witness :
    (0:ℚ) < 120 ∧ RenderInv (State.init 0 120 (fun _ => 0)) :=
  ⟨by norm_num,
    c6_render_selection_safe.1 0 120 (fun _ => 0) (by norm_num)
      (fun i => le_refl 0)⟩

theorem c7_button_bijection_eight_moles_witness :
    (State.init 0 120 (fun _ => 0)).mole_states.length = 8 ∧
    (handle (State.init 0 120 (fun _ => 0)) [Event.tick] 5
      (fun _ => 0)).1.mole_states.length = 8 :=
  ⟨by simp [State.init],
    c7_button_bijection_eight_moles.2.2.2.2 (State.init 0 120 (fun _ => 0))
      [Event.tick] 5 (fun _ => 0) (by simp [State.init])⟩

theorem c8_initial_state_witness :
    (0:ℚ) ≤ 120 ∧
    (∀ i : ℕ, (0:ℚ) ≤ (fun _ => (0:ℚ)) i ∧ (fun _ => (0:ℚ)) i < 1) ∧
    (State.init 0 120 (fun _ => 0)).now = 0 :=
  ⟨by norm_num, fun i => ⟨le_refl 0, by norm_num⟩,
    (c8_initial_state 0 120 (fun _ => 0) (by norm_num)
      (fun i => ⟨le_refl 0, by norm_num⟩)).2.2.2.2.1⟩

theorem c9_drain_terminates_witness :
    (handle (State.init 0 120 (fun _ => 0)) [Event.gameOver] 0
      (fun _ => 0)).2 = [] ∧
    (drainIter (fun _ => (0, fun _ => 0))
      (queueMeasure [Event.tick, Event.gameOver]) 0
      (State.init 0 120 (fun _ => 0), [Event.tick, Event.gameOver])).2 = [] :=
  ⟨(c9_drain_terminates.1 (State.init 0 120 (fun _ => 0)) Event.gameOver []
      0 (fun _ => 0)).2.2 (Or.inl rfl),
    c9_drain_terminates.2 (fun _ => (0, fun _ => 0)) 0
      (State.init 0 120 (fun _ => 0)) [Event.tick, Event.gameOver]⟩

end DanceAMole
